import Mathlib

/-!
Shallow embedding of `src/dadosabertos_scraper/scrape.py` (a bulk downloader
for the dados.gov.br open-data catalog) together with proofs about its
pagination, cursor, probing, retry and concurrency behaviour.

The embedding follows the Python source:

* `get_total_records` (the count prober) is modelled over an abstract
  description of what the HTTP exchange did, with the Python exception
  classes that the `try/except` can see modelled explicitly.
* the page-planning loop inside `main` becomes `planPages` / `mkPage`;
* the per-category cursor bookkeeping of `main` becomes `stepCategory`
  and the whole run becomes `runScrape` / `runPlan`;
* `fetch_and_save`'s retry loop becomes `fetchGo` / `fetch_and_save`,
  driven by an oracle giving the outcome of each attempt;
* the `asyncio.Semaphore`-gated wave of workers is modelled as a small-step
  interleaving transition system `Step` over worker phases.
-/

namespace Scrape

/-- The fixed license category list from the source (`LICENSES`). -/
def LICENSES : List String := ["cc-by", "cc-zero", "odc-odbl", "odc-pddl"]

/-! ## Page planner

`main` plans, for `i in range(num_pages)`:

```
api_offset = i * args.page_size
start_index = file_naming_start_index + api_offset
records_on_this_page = min(args.page_size, total_records_for_license - api_offset)
end_index = start_index + records_on_this_page - 1
filename = f"{start_index}-{end_index}.json"
```

with `num_pages = math.ceil(total_records_for_license / args.page_size)`.
All quantities are non-negative Python ints; we use `Nat`.  For `i` in range,
`api_offset < total` (proved below), so `Nat` truncated subtraction agrees
with Python's exact subtraction in `total - api_offset`, and
`records_on_this_page ≥ 1` so `end_index`'s `- 1` is also exact. -/

/-- The value `math.ceil(total / page_size)` for non-negative integers. -/
def numPages (total page_size : Nat) : Nat := (total + page_size - 1) / page_size

/-- One planned page: the record a Fetch Worker consumes. -/
structure PageRequest where
  api_offset : Nat
  records_on_page : Nat
  global_start : Nat
  global_end : Nat
  filename : String
  deriving Repr, DecidableEq

/-- The filename computed in `main`: `f"{start_index}-{end_index}.json"`. -/
def mkFilename (start_index end_index : Nat) : String :=
  toString start_index ++ "-" ++ toString end_index ++ ".json"

/-- Page `i` (0-based) of a category with `total` records, planned at global
cursor `cursor`, exactly as the loop body in `main` computes it. -/
def mkPage (total page_size cursor i : Nat) : PageRequest :=
  let api_offset := i * page_size
  let start_index := cursor + api_offset
  let records_on_this_page := min page_size (total - api_offset)
  let end_index := start_index + records_on_this_page - 1
  { api_offset := api_offset
    records_on_page := records_on_this_page
    global_start := start_index
    global_end := end_index
    filename := mkFilename start_index end_index }

/-- The full page plan of one category: the `for i in range(num_pages)` loop. -/
def planPages (total page_size cursor : Nat) : List PageRequest :=
  (List.range (numPages total page_size)).map (mkPage total page_size cursor)

/-- The warning predicate in `main`: `total_records_for_license > 9999`.
The warning is printed but the plan is not clamped. -/
def warnsApiLimit (total : Nat) : Bool := total > 9999

/-! ## Bounded Fetch Worker (`fetch_and_save`)

The retry loop is

```
for attempt in range(args.retries):
    try:
        response = await client.get(BASE_URL, params=params, timeout=args.timeout)
        response.raise_for_status()
        with open(filepath, "wb") as f:
            f.write(response.content)
        print(f"✅ Success: Saved {filename}")
        return
    except Exception as e:
        print(f"❌ Error ... (Attempt {attempt + 1}/{args.retries}) ...")
        if attempt < args.retries - 1:
            await asyncio.sleep(args.retry_delay)
        else:
            print(f"❌ Failed to download {filename} after {args.retries} attempts.")
```

Each attempt is driven by an oracle `outcomes : Nat → Except FetchErr String`:
`.error e` means the attempt raised exception `e` (timeout, connection
failure, or `raise_for_status` on a non-2xx response — all raised before the
file is opened), `.ok body` means a 2xx response whose body `body` is then
written whole to the target file.  The filesystem write itself is modelled as
succeeding; IO errors at write time are outside the model.  The `except
Exception` handler catches every class in `FetchErr`
(`fetchHandlerCatches` is constantly `true`); an uncaught exception would
surface as `Except.error` in the result type. -/

/-- Exception classes an attempt can raise, all before the file write. -/
inductive FetchErr where
  | timeoutExc
  | connectError
  | httpStatusError
  | otherError
  deriving Repr, DecidableEq

/-- The clause `except Exception` catches every exception class. -/
def fetchHandlerCatches : FetchErr → Bool := fun _ => true

/-- Observable outcome of one `fetch_and_save` call: how many attempts ran,
what (if anything) was written to the target file, how many inter-retry
sleeps happened, and which terminal log lines were printed. -/
structure FetchResult where
  attemptsMade : Nat
  file : Option (String × String)
  sleepsDone : Nat
  successLogged : Bool
  exhaustedLogged : Bool
  deriving Repr, DecidableEq

/-- The retry loop of `fetch_and_save`, with `a` the 0-based index of the
current attempt and the second argument the number of attempts remaining
(`args.retries - a`).  `Except.error` in the result would be an exception
escaping the loop; the handler catches everything, so it never occurs. -/
def fetchGo (outcomes : Nat → Except FetchErr String) (filename : String) :
    Nat → Nat → Except FetchErr FetchResult
  | _, 0 => .ok ⟨0, none, 0, false, false⟩
  | a, r + 1 =>
    match outcomes a with
    | .ok body => .ok ⟨1, some (filename, body), 0, true, false⟩
    | .error e =>
      if fetchHandlerCatches e then
        if r = 0 then
          .ok ⟨1, none, 0, false, true⟩
        else
          match fetchGo outcomes filename (a + 1) r with
          | .ok rest =>
              .ok ⟨rest.attemptsMade + 1, rest.file, rest.sleepsDone + 1,
                   rest.successLogged, rest.exhaustedLogged⟩
          | .error e2 => .error e2
      else .error e

/-- One Fetch Worker execution with `retries` allowed attempts. -/
def fetch_and_save (outcomes : Nat → Except FetchErr String) (filename : String)
    (retries : Nat) : Except FetchErr FetchResult :=
  fetchGo outcomes filename 0 retries


/-! ## Category Orchestrator and Run Driver (`main`)

`main` initialises `file_naming_start_index = 1`, then for each license
filter probes the total, skips the category when the probed value is falsy
(`None` or `0` — Python's `if not total_records_for_license`), otherwise
plans the pages at the current cursor, runs the wave of `fetch_and_save`
tasks to completion (`asyncio.gather`), and only then advances the cursor by
the declared total (`file_naming_start_index += total_records_for_license`).
`runScrape` is that loop, driven by the list of probed counts and an oracle
`outcomes catIdx pageIdx attempt` for the attempts of every worker;
`runPlan` is the same loop with the fetch results erased. -/

/-- One category step of `main`: from the current cursor and the probed
count, the new cursor and the planned pages.  `none` (probe returned `None`)
and `some 0` are both falsy in `if not total_records_for_license`, so both
skip: no pages, cursor untouched. -/
def stepCategory (page_size cursor : Nat) (count : Option Nat) :
    Nat × List PageRequest :=
  match count with
  | none => (cursor, [])
  | some total =>
    if total = 0 then (cursor, [])
    else (cursor + total, planPages total page_size cursor)

/-- The wave of Fetch Workers for one category: one `fetch_and_save` per
planned page, each writing under its own page's filename. -/
def wave (retries : Nat) (outcomes : Nat → Nat → Except FetchErr String)
    (pages : List PageRequest) : List (Except FetchErr FetchResult) :=
  pages.enum.map (fun pj => fetch_and_save (outcomes pj.1) pj.2.filename retries)

/-- The category loop of `main` with fetch results: returns the per-category
wave results and the final cursor.  `catIdx` is the position in the license
list (skipped categories still advance it). -/
def runScrape (page_size retries : Nat)
    (outcomes : Nat → Nat → Nat → Except FetchErr String) :
    List (Option Nat) → Nat → Nat →
      List (List (Except FetchErr FetchResult)) × Nat
  | [], _, cursor => ([], cursor)
  | count :: rest, catIdx, cursor =>
    let step := stepCategory page_size cursor count
    let results := wave retries (outcomes catIdx) step.2
    let tail := runScrape page_size retries outcomes rest (catIdx + 1) step.1
    (results :: tail.1, tail.2)

/-- The category loop of `main`, keeping only the planned pages and the
cursor (the planning data is independent of fetch outcomes). -/
def runPlan (page_size : Nat) :
    List (Option Nat) → Nat → List (List PageRequest) × Nat
  | [], cursor => ([], cursor)
  | count :: rest, cursor =>
    let step := stepCategory page_size cursor count
    let tail := runPlan page_size rest step.1
    (step.2 :: tail.1, tail.2)


/-! ## Count Prober (`get_total_records`)

```
try:
    with httpx.Client() as client:
        response = client.get(BASE_URL, params=params, timeout=timeout)
        response.raise_for_status()
        data = orjson.loads(response.content)
        total_records = data["totalRegistros"]
        return total_records
except (httpx.RequestError, orjson.JSONDecodeError, KeyError) as e:
    return None
```

The steps of the `try` body can raise, in order: `client.get` raises
`httpx.RequestError` on transport failure; `response.raise_for_status()`
raises `httpx.HTTPStatusError` on a non-2xx status; `orjson.loads` raises
`orjson.JSONDecodeError` on an unparseable body; `data["totalRegistros"]`
raises `KeyError` when the field is absent.  In httpx's exception hierarchy
`HTTPStatusError` and `RequestError` are sibling subclasses of `HTTPError`:
`HTTPStatusError` is NOT a `RequestError`, so the `except` clause above does
not match it and it propagates out of `get_total_records` (and out of
`main`, whose caller only catches `KeyboardInterrupt`). -/

/-- The Python exception classes relevant to `get_total_records`. -/
inductive PyExn where
  | requestError
  | httpStatusError
  | jsonDecodeError
  | keyError
  deriving Repr, DecidableEq

/-- What the HTTP exchange of one probe returned, when the transport did not
fail: the status class, and the result of parsing the body
(`none` = body not valid JSON; `some none` = valid JSON without a
`totalRegistros` field; `some (some n)` = `totalRegistros` present with
value `n`). -/
structure HttpResponse where
  statusOk : Bool
  parsed : Option (Option Nat)
  deriving Repr, DecidableEq

/-- One probe attempt as seen from the outside: either the transport failed
(`client.get` raised `httpx.RequestError`) or a response came back. -/
inductive ProbeWire where
  | transportError
  | response (r : HttpResponse)
  deriving Repr, DecidableEq

/-- The `try` body of `get_total_records`: the first raising step wins. -/
def probeTryBody (w : ProbeWire) : Except PyExn Nat :=
  match w with
  | .transportError => .error .requestError
  | .response r =>
    if r.statusOk then
      match r.parsed with
      | none => .error .jsonDecodeError
      | some none => .error .keyError
      | some (some n) => .ok n
    else .error .httpStatusError

/-- Which exceptions `except (httpx.RequestError, orjson.JSONDecodeError,
KeyError)` matches.  `httpx.HTTPStatusError` is not a subclass of any of the
three, so it is not caught. -/
def probeHandlerCatches : PyExn → Bool
  | .requestError => true
  | .jsonDecodeError => true
  | .keyError => true
  | .httpStatusError => false

/-- The prober `get_total_records`: returns `.ok (some n)` on success, `.ok none` when
the handler caught the exception, and `.error e` when exception `e`
propagates out of the function. -/
def get_total_records (w : ProbeWire) : Except PyExn (Option Nat) :=
  match probeTryBody w with
  | .ok n => .ok (some n)
  | .error e => if probeHandlerCatches e then .ok none else .error e


/-! ## Concurrency model of one fetch wave (C8, C9)

`main` creates one `fetch_and_save` task per page and a single
`asyncio.Semaphore(args.concurrency)`; every task's body is

```
async with semaphore:
    ...
    for attempt in range(args.retries):
        try:
            response = await client.get(...)
            ...
            return
        except Exception:
            ...
            await asyncio.sleep(args.retry_delay)  # when attempts remain
```

so the permit is acquired once, before the first attempt, and released only
when the task leaves the `async with` block — on the success `return` or
after the final failed attempt.  We model the wave as an interleaving
transition system: each worker is in one phase, the semaphore is a counter
of free permits, and a `Step` picks one worker and advances it as the
asyncio scheduler could.  A ghost counter per worker records how many times
it has acquired the semaphore. -/

/-- Phase of one Fetch Worker task within a wave. -/
inductive Phase where
  | created
  | waiting
  | inFlight (attempt : Nat)
  | sleeping (attempt : Nat)
  | finished
  deriving Repr, DecidableEq

/-- A worker: its phase plus the ghost count of semaphore acquisitions. -/
structure Worker where
  phase : Phase
  acquires : Nat
  deriving Repr, DecidableEq

/-- State of a wave: free permits of the shared semaphore, and the workers. -/
structure SysState where
  sem : Nat
  workers : List Worker
  deriving Repr, DecidableEq

/-- A worker holds the concurrency permit exactly in the phases inside the
`async with semaphore:` block. -/
def holdsPermit : Phase → Bool
  | .inFlight _ => true
  | .sleeping _ => true
  | _ => false

/-- A worker is in the request-in-flight state. -/
def isInFlight : Phase → Bool
  | .inFlight _ => true
  | _ => false

/-- A worker has entered the `async with` block at some point. -/
def postAcquire : Phase → Bool
  | .created => false
  | .waiting => false
  | _ => true

/-- Number of workers currently holding a permit. -/
def heldPermits (ws : List Worker) : Nat :=
  ws.countP (fun w => holdsPermit w.phase)

/-- Number of workers with a request in flight. -/
def inFlightCount (ws : List Worker) : Nat :=
  ws.countP (fun w => isInFlight w.phase)

/-- The wave before any task has run: all permits free, every worker
created and having acquired nothing. -/
def initState (limit n : Nat) : SysState :=
  ⟨limit, List.replicate n ⟨Phase.created, 0⟩⟩

/-- One scheduler step of a wave with retry budget `retries`.  `acquire` can
fire only when a free permit exists (`sem = s + 1`) and is the only
transition that decrements the semaphore or touches the ghost counter;
`succeed` (success `return`) and `failExhaust` (final attempt failed) leave
the `async with` block and give the permit back; `failRetry`/`wake` move
between the attempts of one worker while it keeps holding its permit. -/
inductive Step (retries : Nat) : SysState → SysState → Prop
  | start (s : Nat) (pre post : List Worker) (a : Nat) :
      Step retries ⟨s, pre ++ ⟨Phase.created, a⟩ :: post⟩
        ⟨s, pre ++ ⟨Phase.waiting, a⟩ :: post⟩
  | acquire (s : Nat) (pre post : List Worker) (a : Nat) :
      Step retries ⟨s + 1, pre ++ ⟨Phase.waiting, a⟩ :: post⟩
        ⟨s, pre ++ ⟨Phase.inFlight 0, a + 1⟩ :: post⟩
  | succeed (s : Nat) (pre post : List Worker) (j a : Nat) :
      Step retries ⟨s, pre ++ ⟨Phase.inFlight j, a⟩ :: post⟩
        ⟨s + 1, pre ++ ⟨Phase.finished, a⟩ :: post⟩
  | failRetry (s : Nat) (pre post : List Worker) (j a : Nat) (h : j + 1 < retries) :
      Step retries ⟨s, pre ++ ⟨Phase.inFlight j, a⟩ :: post⟩
        ⟨s, pre ++ ⟨Phase.sleeping j, a⟩ :: post⟩
  | failExhaust (s : Nat) (pre post : List Worker) (j a : Nat) (h : j + 1 = retries) :
      Step retries ⟨s, pre ++ ⟨Phase.inFlight j, a⟩ :: post⟩
        ⟨s + 1, pre ++ ⟨Phase.finished, a⟩ :: post⟩
  | wake (s : Nat) (pre post : List Worker) (j a : Nat) :
      Step retries ⟨s, pre ++ ⟨Phase.sleeping j, a⟩ :: post⟩
        ⟨s, pre ++ ⟨Phase.inFlight (j + 1), a⟩ :: post⟩

/-- States a wave of `n` workers under `limit` permits can reach. -/
inductive Reachable (limit retries n : Nat) : SysState → Prop
  | init : Reachable limit retries n (initState limit n)
  | next {s t : SysState} :
      Reachable limit retries n s → Step retries s t → Reachable limit retries n t

/-- The wave invariant: free permits and held permits always add up to the
semaphore's initial value, and a worker's ghost acquisition count is 1 after
it has entered the `async with` block and 0 before. -/
def Inv (limit : Nat) (s : SysState) : Prop :=
  s.sem + heldPermits s.workers = limit ∧
  ∀ w ∈ s.workers,
    (postAcquire w.phase = true → w.acquires = 1) ∧
    (postAcquire w.phase = false → w.acquires = 0)


/-! ### Planner arithmetic lemmas -/

theorem numPages_pos (total page_size : Nat) (ht : 0 < total) (hp : 0 < page_size) :
    0 < numPages total page_size := by
  unfold numPages
  exact Nat.div_pos (by omega) hp

theorem offset_lt_total (total page_size i : Nat) (hp : 0 < page_size)
    (hi : i < numPages total page_size) : i * page_size < total := by
  unfold numPages at hi
  have h1 : (i + 1) * page_size ≤ (total + page_size - 1) / page_size * page_size :=
    Nat.mul_le_mul_right _ hi
  have h2 : (total + page_size - 1) / page_size * page_size ≤ total + page_size - 1 :=
    Nat.div_mul_le_self _ _
  have h3 := le_trans h1 h2
  have h4 : (i + 1) * page_size = i * page_size + page_size := by ring
  omega

theorem records_pos (total page_size i : Nat) (hp : 0 < page_size)
    (hi : i < numPages total page_size) :
    0 < min page_size (total - i * page_size) := by
  have := offset_lt_total total page_size i hp hi
  omega

theorem records_eq_page_size_of_not_last (total page_size i : Nat) (hp : 0 < page_size)
    (hi : i + 1 < numPages total page_size) :
    min page_size (total - i * page_size) = page_size := by
  have h := offset_lt_total total page_size (i + 1) hp hi
  have : (i + 1) * page_size = i * page_size + page_size := by ring
  omega

theorem planPages_length (total page_size cursor : Nat) :
    (planPages total page_size cursor).length = numPages total page_size := by
  simp [planPages]

theorem planPages_get (total page_size cursor i : Nat)
    (h : i < (planPages total page_size cursor).length) :
    (planPages total page_size cursor).get ⟨i, h⟩ = mkPage total page_size cursor i := by
  simp [planPages]

theorem total_le_numPages_mul (total page_size : Nat) (hp : 0 < page_size) :
    total ≤ numPages total page_size * page_size := by
  have h : numPages total page_size = total ⌈/⌉ page_size :=
    (Nat.ceilDiv_eq_add_pred_div total page_size).symm
  have h2 : total ≤ page_size • (total ⌈/⌉ page_size) := le_smul_ceilDiv hp
  simpa [h, smul_eq_mul, Nat.mul_comm] using h2

theorem pred_numPages_mul_lt (total page_size : Nat) (ht : 0 < total) (hp : 0 < page_size) :
    (numPages total page_size - 1) * page_size < total := by
  have hn := numPages_pos total page_size ht hp
  have := offset_lt_total total page_size (numPages total page_size - 1) hp (by omega)
  exact this

theorem sum_min_records (page_size : Nat) :
    ∀ n total : Nat,
      ((List.range n).map (fun i => min page_size (total - i * page_size))).sum
        = min total (n * page_size)
  | 0, total => by simp
  | n + 1, total => by
    have ih := sum_min_records page_size n total
    rw [List.range_succ, List.map_append, List.sum_append]
    simp only [List.map_cons, List.map_nil, List.sum_cons, List.sum_nil, ih]
    have h : (n + 1) * page_size = n * page_size + page_size := by ring
    omega

theorem planPages_records_sum (total page_size cursor : Nat) (hp : 0 < page_size) :
    ((planPages total page_size cursor).map PageRequest.records_on_page).sum = total := by
  have hle := total_le_numPages_mul total page_size hp
  have h := sum_min_records page_size (numPages total page_size) total
  simp only [planPages, List.map_map]
  have heq : PageRequest.records_on_page ∘ mkPage total page_size cursor
      = fun i => min page_size (total - i * page_size) := rfl
  rw [heq, h]
  omega

/-- C1.  The page planning loop inside `main`, for a category with
`total > 0` records and page size `page_size > 0`, planned at global cursor
`cursor`, produces exactly `ceil(total / page_size)` pages (characterised as
the least `n` with `total ≤ n * page_size`); page `i` carries
`api_offset = i * page_size`,
`records_on_page = min(page_size, total - api_offset)`,
`global_start = cursor + api_offset` and
`global_end = global_start + records_on_page - 1`; consecutive global index
ranges are contiguous, all ranges are pairwise non-overlapping, the first
range starts at `cursor`, the last ends at `cursor + total - 1`, and the
record counts sum to exactly `total`.  The statement quantifies over all
`total`, including `total > 9999`: the plan is never clamped or truncated
(the API-limit check in `main` only prints a warning). -/
theorem C1_page_planner (total page_size cursor : Nat) (ht : 0 < total) (hp : 0 < page_size) :
    (planPages total page_size cursor).length = numPages total page_size ∧
    total ≤ (planPages total page_size cursor).length * page_size ∧
    ((planPages total page_size cursor).length - 1) * page_size < total ∧
    (∀ i, ∀ h : i < (planPages total page_size cursor).length,
      ((planPages total page_size cursor).get ⟨i, h⟩).api_offset = i * page_size ∧
      ((planPages total page_size cursor).get ⟨i, h⟩).records_on_page
        = min page_size (total - i * page_size) ∧
      ((planPages total page_size cursor).get ⟨i, h⟩).global_start
        = cursor + i * page_size ∧
      ((planPages total page_size cursor).get ⟨i, h⟩).global_end
        = ((planPages total page_size cursor).get ⟨i, h⟩).global_start
          + ((planPages total page_size cursor).get ⟨i, h⟩).records_on_page - 1) ∧
    (∀ i, ∀ h : i + 1 < (planPages total page_size cursor).length,
      ((planPages total page_size cursor).get ⟨i + 1, h⟩).global_start
        = ((planPages total page_size cursor).get ⟨i, Nat.lt_of_succ_lt h⟩).global_end + 1) ∧
    (∀ i j, ∀ hij : i < j, ∀ hj : j < (planPages total page_size cursor).length,
      ((planPages total page_size cursor).get ⟨i, lt_trans hij hj⟩).global_end
        < ((planPages total page_size cursor).get ⟨j, hj⟩).global_start) ∧
    (∀ h0 : 0 < (planPages total page_size cursor).length,
      ((planPages total page_size cursor).get ⟨0, h0⟩).global_start = cursor) ∧
    (∀ hn : (planPages total page_size cursor).length - 1
        < (planPages total page_size cursor).length,
      ((planPages total page_size cursor).get
          ⟨(planPages total page_size cursor).length - 1, hn⟩).global_end
        = cursor + total - 1) ∧
    ((planPages total page_size cursor).map PageRequest.records_on_page).sum = total := by
  have hlen := planPages_length total page_size cursor
  refine ⟨hlen, ?_, ?_, ?_, ?_, ?_, ?_, ?_, ?_⟩
  · rw [hlen]; exact total_le_numPages_mul total page_size hp
  · rw [hlen]; exact pred_numPages_mul_lt total page_size ht hp
  · intro i h
    rw [planPages_get total page_size cursor i h]
    exact ⟨rfl, rfl, rfl, rfl⟩
  · intro i h
    rw [planPages_get total page_size cursor (i + 1) h,
        planPages_get total page_size cursor i (Nat.lt_of_succ_lt h)]
    have hi1 : i + 1 < numPages total page_size := by rw [hlen] at h; exact h
    have hrec := records_eq_page_size_of_not_last total page_size i hp hi1
    show cursor + (i + 1) * page_size
        = cursor + i * page_size + min page_size (total - i * page_size) - 1 + 1
    have h2 : (i + 1) * page_size = i * page_size + page_size := by ring
    omega
  · intro i j hij hj
    rw [planPages_get total page_size cursor i (lt_trans hij hj),
        planPages_get total page_size cursor j hj]
    show cursor + i * page_size + min page_size (total - i * page_size) - 1
        < cursor + j * page_size
    have hjn : j < numPages total page_size := by rw [hlen] at hj; exact hj
    have hin : i < numPages total page_size := lt_trans hij hjn
    have hpos := records_pos total page_size i hp hin
    have hle : (i + 1) * page_size ≤ j * page_size := Nat.mul_le_mul_right _ hij
    have h2 : (i + 1) * page_size = i * page_size + page_size := by ring
    omega
  · intro h0
    rw [planPages_get total page_size cursor 0 h0]
    show cursor + 0 * page_size = cursor
    omega
  · intro hn
    rw [planPages_get total page_size cursor _ hn]
    have hnp := numPages_pos total page_size ht hp
    have hlast : (numPages total page_size - 1) * page_size < total :=
      pred_numPages_mul_lt total page_size ht hp
    have hcov := total_le_numPages_mul total page_size hp
    rw [hlen]
    show cursor + (numPages total page_size - 1) * page_size
        + min page_size (total - (numPages total page_size - 1) * page_size) - 1
        = cursor + total - 1
    have h2 : (numPages total page_size - 1 + 1) * page_size
        = (numPages total page_size - 1) * page_size + page_size := by ring
    have h3 : numPages total page_size - 1 + 1 = numPages total page_size := by omega
    rw [h3] at h2
    omega
  · exact planPages_records_sum total page_size cursor hp

/-- Witness for C1 at the spec's own scenario: `total = 1200`,
`page_size = 500`, `cursor = 1`. -/
theorem C1_page_planner_witness :
    ((planPages 1200 500 1).map PageRequest.records_on_page).sum = 1200 :=
  (C1_page_planner 1200 500 1 (by decide) (by decide)).2.2.2.2.2.2.2.2

theorem fetchGo_isOk (outcomes : Nat → Except FetchErr String) (filename : String) :
    ∀ r a, ∃ res, fetchGo outcomes filename a r = .ok res := by
  intro r
  induction r with
  | zero => intro a; exact ⟨_, rfl⟩
  | succ r ih =>
    intro a
    cases houtcome : outcomes a with
    | ok body =>
      exact ⟨⟨1, some (filename, body), 0, true, false⟩, by simp [fetchGo, houtcome]⟩
    | error e =>
      rcases Nat.eq_zero_or_pos r with hr | hr
      · subst hr
        exact ⟨⟨1, none, 0, false, true⟩, by simp [fetchGo, houtcome, fetchHandlerCatches]⟩
      · obtain ⟨rest, hrest⟩ := ih (a + 1)
        refine ⟨⟨rest.attemptsMade + 1, rest.file, rest.sleepsDone + 1,
          rest.successLogged, rest.exhaustedLogged⟩, ?_⟩
        simp only [fetchGo, houtcome, fetchHandlerCatches, if_true]
        rw [if_neg (by omega), hrest]

theorem runScrape_cursor_eq_runPlan (page_size retries : Nat)
    (outcomes : Nat → Nat → Nat → Except FetchErr String) :
    ∀ (counts : List (Option Nat)) (catIdx cursor : Nat),
      (runScrape page_size retries outcomes counts catIdx cursor).2
        = (runPlan page_size counts cursor).2
  | [], _, _ => rfl
  | _ :: rest, catIdx, _ =>
    runScrape_cursor_eq_runPlan page_size retries outcomes rest (catIdx + 1) _

theorem runPlan_cursor_known (page_size : Nat) :
    ∀ (cs : List Nat) (cursor : Nat),
      (runPlan page_size (cs.map some) cursor).2 = cursor + cs.sum
  | [], cursor => by simp [runPlan]
  | c :: rest, cursor => by
    have ih := runPlan_cursor_known page_size rest
    rcases Nat.eq_zero_or_pos c with hc | hc
    · subst hc
      simp [runPlan, stepCategory, ih]
    · simp only [List.map_cons, runPlan, stepCategory, if_neg (by omega : ¬c = 0),
        List.sum_cons, ih]
      ring

/-- C2.  With the global cursor initialised to 1 (as in `main`), a run over
categories whose probed counts are the known values `cs = [c1, ..., cn]`
ends, after the first `i` categories, with cursor `1 + c1 + ... + ci`, and
after all of them with cursor `1 + c1 + ... + cn` — for every oracle of
fetch outcomes, i.e. regardless of how many page fetches inside the waves
failed.  In `runScrape` the cursor update is sequenced after the category's
whole wave, mirroring `file_naming_start_index += total_records_for_license`
after `asyncio.gather`. -/
theorem C2_cursor_sums_declared_totals (page_size retries : Nat)
    (outcomes : Nat → Nat → Nat → Except FetchErr String)
    (cs : List Nat) (i : Nat) :
    (runScrape page_size retries outcomes ((cs.take i).map some) 0 1).2
      = 1 + (cs.take i).sum ∧
    (runScrape page_size retries outcomes (cs.map some) 0 1).2 = 1 + cs.sum := by
  constructor
  · rw [runScrape_cursor_eq_runPlan, runPlan_cursor_known]
  · rw [runScrape_cursor_eq_runPlan, runPlan_cursor_known]

/-- C4.  A category whose probed count is `None` (unknown) or `0` plans zero
`PageRequest`s, launches an empty fetch wave, and leaves the cursor for the
following categories unchanged. -/
theorem C4_zero_or_unknown_skips (page_size retries cursor catIdx : Nat)
    (outcomes : Nat → Nat → Nat → Except FetchErr String)
    (rest : List (Option Nat)) :
    stepCategory page_size cursor none = (cursor, []) ∧
    stepCategory page_size cursor (some 0) = (cursor, []) ∧
    runScrape page_size retries outcomes (none :: rest) catIdx cursor
      = ([] :: (runScrape page_size retries outcomes rest (catIdx + 1) cursor).1,
         (runScrape page_size retries outcomes rest (catIdx + 1) cursor).2) ∧
    runScrape page_size retries outcomes (some 0 :: rest) catIdx cursor
      = ([] :: (runScrape page_size retries outcomes rest (catIdx + 1) cursor).1,
         (runScrape page_size retries outcomes rest (catIdx + 1) cursor).2) :=
  ⟨rfl, rfl, rfl, rfl⟩

/-! ### Run-wide range invariants (C3) -/

theorem mkPage_end_lt_start (total page_size cursor : Nat) (hp : 0 < page_size)
    (i j : Nat) (hij : i < j) (hj : j < numPages total page_size) :
    (mkPage total page_size cursor i).global_end
      < (mkPage total page_size cursor j).global_start := by
  have hin : i < numPages total page_size := lt_trans hij hj
  have hpos := records_pos total page_size i hp hin
  have hle : (i + 1) * page_size ≤ j * page_size := Nat.mul_le_mul_right _ hij
  have h2 : (i + 1) * page_size = i * page_size + page_size := by ring
  show cursor + i * page_size + min page_size (total - i * page_size) - 1
      < cursor + j * page_size
  omega

theorem planPages_pairwise (total page_size cursor : Nat) (hp : 0 < page_size) :
    List.Pairwise (fun p q => p.global_end < q.global_start)
      (planPages total page_size cursor) := by
  unfold planPages
  rw [List.pairwise_map, List.pairwise_iff_get]
  intro i j hij
  rw [List.get_eq_getElem, List.get_eq_getElem, List.getElem_range, List.getElem_range]
  have hj2 : (j : Nat) < numPages total page_size := by
    have := j.2
    simpa using this
  exact mkPage_end_lt_start total page_size cursor hp _ _ hij hj2

theorem planPages_mem_bounds (total page_size cursor : Nat) (hp : 0 < page_size)
    (p : PageRequest) (hmem : p ∈ planPages total page_size cursor) :
    cursor ≤ p.global_start ∧ p.global_start ≤ p.global_end ∧
    p.global_end < cursor + total ∧ page_size ∣ p.api_offset := by
  simp only [planPages, List.mem_map, List.mem_range] at hmem
  obtain ⟨i, hi, rfl⟩ := hmem
  have hlt := offset_lt_total total page_size i hp hi
  have hrec := records_pos total page_size i hp hi
  refine ⟨?_, ?_, ?_, ?_⟩
  · show cursor ≤ cursor + i * page_size
    omega
  · show cursor + i * page_size
        ≤ cursor + i * page_size + min page_size (total - i * page_size) - 1
    omega
  · show cursor + i * page_size + min page_size (total - i * page_size) - 1
        < cursor + total
    omega
  · exact dvd_mul_left page_size i

theorem runPlan_bounds (page_size : Nat) (hp : 0 < page_size) :
    ∀ (counts : List (Option Nat)) (cursor : Nat),
      cursor ≤ (runPlan page_size counts cursor).2 ∧
      (∀ p ∈ ((runPlan page_size counts cursor).1).flatten,
        cursor ≤ p.global_start ∧ p.global_start ≤ p.global_end ∧
        p.global_end < (runPlan page_size counts cursor).2 ∧
        page_size ∣ p.api_offset) ∧
      List.Pairwise (fun p q => p.global_end < q.global_start)
        ((runPlan page_size counts cursor).1).flatten := by
  intro counts
  induction counts with
  | nil =>
    intro cursor
    refine ⟨le_refl _, ?_, ?_⟩ <;> simp [runPlan]
  | cons count rest ih =>
    intro cursor
    have hskip : ∀ c : Option Nat, stepCategory page_size cursor c = (cursor, []) →
        cursor ≤ (runPlan page_size (c :: rest) cursor).2 ∧
        (∀ p ∈ ((runPlan page_size (c :: rest) cursor).1).flatten,
          cursor ≤ p.global_start ∧ p.global_start ≤ p.global_end ∧
          p.global_end < (runPlan page_size (c :: rest) cursor).2 ∧
          page_size ∣ p.api_offset) ∧
        List.Pairwise (fun p q => p.global_end < q.global_start)
          ((runPlan page_size (c :: rest) cursor).1).flatten := by
      intro c hc
      obtain ⟨ih1, ih2, ih3⟩ := ih cursor
      have hc1 : (runPlan page_size (c :: rest) cursor).1
          = [] :: (runPlan page_size rest cursor).1 := by
        simp [runPlan, hc]
      have hc2 : (runPlan page_size (c :: rest) cursor).2
          = (runPlan page_size rest cursor).2 := by
        simp [runPlan, hc]
      rw [hc1, hc2]
      simp only [List.flatten_cons, List.nil_append]
      exact ⟨ih1, ih2, ih3⟩
    match count with
    | none => exact hskip none rfl
    | some 0 => exact hskip (some 0) rfl
    | some (t + 1) =>
      obtain ⟨ih1, ih2, ih3⟩ := ih (cursor + (t + 1))
      have hstep : stepCategory page_size cursor (some (t + 1))
          = (cursor + (t + 1), planPages (t + 1) page_size cursor) := rfl
      have hc1 : (runPlan page_size (some (t + 1) :: rest) cursor).1
          = planPages (t + 1) page_size cursor
            :: (runPlan page_size rest (cursor + (t + 1))).1 := by
        simp [runPlan, hstep]
      have hc2 : (runPlan page_size (some (t + 1) :: rest) cursor).2
          = (runPlan page_size rest (cursor + (t + 1))).2 := by
        simp [runPlan, hstep]
      rw [hc1, hc2]
      simp only [List.flatten_cons]
      refine ⟨by omega, ?_, ?_⟩
      · intro p hpmem
        rw [List.mem_append] at hpmem
        rcases hpmem with hhead | htail
        · obtain ⟨b1, b2, b3, b4⟩ :=
            planPages_mem_bounds (t + 1) page_size cursor hp p hhead
          exact ⟨b1, b2, by omega, b4⟩
        · obtain ⟨b1, b2, b3, b4⟩ := ih2 p htail
          exact ⟨by omega, b2, b3, b4⟩
      · rw [List.pairwise_append]
        refine ⟨planPages_pairwise (t + 1) page_size cursor hp, ih3, ?_⟩
        intro a ha b hb
        obtain ⟨a1, a2, a3, a4⟩ :=
          planPages_mem_bounds (t + 1) page_size cursor hp a ha
        obtain ⟨b1, b2, b3, b4⟩ := ih2 b hb
        omega

/-- C3.  Within a single run started at cursor 1, the global file-name
ranges of all planned pages, flattened in category-processing order, are
strictly increasing (hence pairwise non-overlapping), and every page's
`api_offset` is a multiple of the page size inside its own category's
offset space. -/
theorem C3_ranges_disjoint_increasing (page_size : Nat) (hp : 0 < page_size)
    (counts : List (Option Nat)) :
    List.Pairwise (fun p q => p.global_end < q.global_start)
      ((runPlan page_size counts 1).1).flatten ∧
    ∀ p ∈ ((runPlan page_size counts 1).1).flatten, page_size ∣ p.api_offset := by
  obtain ⟨h1, h2, h3⟩ := runPlan_bounds page_size hp counts 1
  exact ⟨h3, fun p hmem => (h2 p hmem).2.2.2⟩

/-- Counterexample to C5 as stated: a probe whose response has a non-success
HTTP status (here with a perfectly parseable body carrying
`totalRegistros = 5`) makes `get_total_records` raise
`httpx.HTTPStatusError` — it propagates instead of returning the "unknown"
result `None`. -/
theorem C5_counterexample_status_error_raises :
    get_total_records (ProbeWire.response ⟨false, some (some 5)⟩)
      = Except.error PyExn.httpStatusError ∧
    get_total_records (ProbeWire.response ⟨false, some (some 5)⟩)
      ≠ Except.ok none :=
  ⟨rfl, fun h => nomatch h⟩

/-- C5 amended: when a probe attempt fails with a transport failure
(`httpx.RequestError`), an unparseable response body, or a parseable body
missing the `totalRegistros` field, `get_total_records` returns the explicit
"unknown" result `None` rather than raising; but when the client raises on a
non-success HTTP status, the resulting `httpx.HTTPStatusError` is not caught
and propagates out of the prober. -/
theorem C5_amended_probe_unknown (w : ProbeWire) :
    ((w = ProbeWire.transportError
        ∨ ∃ r, w = ProbeWire.response r ∧ r.statusOk = true
            ∧ (r.parsed = none ∨ r.parsed = some none)) →
      get_total_records w = Except.ok none) ∧
    (∀ r, w = ProbeWire.response r → r.statusOk = false →
      get_total_records w = Except.error PyExn.httpStatusError) := by
  constructor
  · intro hcase
    rcases hcase with rfl | ⟨r, rfl, hok, hparse⟩
    · rfl
    · rcases hparse with hnone | hsome
      · simp [get_total_records, probeTryBody, probeHandlerCatches, hok, hnone]
      · simp [get_total_records, probeTryBody, probeHandlerCatches, hok, hsome]
  · intro r hw hstatus
    subst hw
    simp [get_total_records, probeTryBody, probeHandlerCatches, hstatus]

/-- Witness for the amended C5: a transport error yields `None`; a
non-success status propagates `HTTPStatusError`. -/
theorem C5_amended_probe_unknown_witness :
    get_total_records ProbeWire.transportError = Except.ok none ∧
    get_total_records (ProbeWire.response ⟨false, none⟩)
      = Except.error PyExn.httpStatusError :=
  ⟨(C5_amended_probe_unknown ProbeWire.transportError).1 (Or.inl rfl),
   (C5_amended_probe_unknown (ProbeWire.response ⟨false, none⟩)).2
     ⟨false, none⟩ rfl rfl⟩

/-! ### Fetch Worker retry-loop theorems (C6, C7, C10) -/

theorem fetchGo_error_step (outcomes : Nat → Except FetchErr String)
    (filename : String) (a r : Nat) (e : FetchErr)
    (he : outcomes a = Except.error e) (hr : r ≠ 0) :
    fetchGo outcomes filename a (r + 1)
      = match fetchGo outcomes filename (a + 1) r with
        | .ok rest =>
            .ok ⟨rest.attemptsMade + 1, rest.file, rest.sleepsDone + 1,
                 rest.successLogged, rest.exhaustedLogged⟩
        | .error e2 => .error e2 := by
  simp only [fetchGo, he, fetchHandlerCatches, if_true]
  rw [if_neg hr]

theorem fetchGo_success (outcomes : Nat → Except FetchErr String) (filename : String) :
    ∀ (r a : Nat) (body : String), 0 < r →
      (∀ k, k < r - 1 → ∃ e, outcomes (a + k) = Except.error e) →
      outcomes (a + (r - 1)) = Except.ok body →
      fetchGo outcomes filename a r
        = Except.ok ⟨r, some (filename, body), r - 1, true, false⟩
  | 0, _, _, h, _, _ => (Nat.lt_irrefl 0 h).elim
  | 1, a, body, _, _, hsucc => by
    have h : outcomes a = Except.ok body := by simpa using hsucc
    simp [fetchGo, h]
  | r + 2, a, body, _, hfail, hsucc => by
    obtain ⟨e, he⟩ := hfail 0 (by omega)
    have he2 : outcomes a = Except.error e := by simpa using he
    have ih := fetchGo_success outcomes filename (r + 1) (a + 1) body (by omega)
      (fun k hk => by
        have hk2 := hfail (k + 1) (by omega)
        have heq : a + (k + 1) = a + 1 + k := by omega
        rw [heq] at hk2
        exact hk2)
      (by
        have heq : a + 1 + (r + 1 - 1) = a + (r + 2 - 1) := by omega
        rw [heq]
        exact hsucc)
    rw [fetchGo_error_step outcomes filename a (r + 1) e he2 (by omega), ih]
    simp

theorem fetchGo_all_fail (outcomes : Nat → Except FetchErr String) (filename : String) :
    ∀ (r a : Nat), 0 < r →
      (∀ k, k < r → ∃ e, outcomes (a + k) = Except.error e) →
      fetchGo outcomes filename a r = Except.ok ⟨r, none, r - 1, false, true⟩
  | 0, _, h, _ => (Nat.lt_irrefl 0 h).elim
  | 1, a, _, hfail => by
    obtain ⟨e, he⟩ := hfail 0 (by omega)
    have he2 : outcomes a = Except.error e := by simpa using he
    simp [fetchGo, he2, fetchHandlerCatches]
  | r + 2, a, _, hfail => by
    obtain ⟨e, he⟩ := hfail 0 (by omega)
    have he2 : outcomes a = Except.error e := by simpa using he
    have ih := fetchGo_all_fail outcomes filename (r + 1) (a + 1) (by omega)
      (fun k hk => by
        have hk2 := hfail (k + 1) (by omega)
        have heq : a + (k + 1) = a + 1 + k := by omega
        rw [heq] at hk2
        exact hk2)
    rw [fetchGo_error_step outcomes filename a (r + 1) e he2 (by omega), ih]
    simp

/-- C6.  A Fetch Worker with retry budget `N ≥ 1` whose attempts `1..N-1`
fail and whose attempt `N` succeeds performs exactly `N` request attempts
(hence no more than `N`), writes the response body to exactly one file,
named `<global_start>-<global_end>.json`, sleeps only between the failed
attempts (`N - 1` inter-retry delays), and returns success immediately after
the successful attempt — no attempt follows it. -/
theorem C6_fail_then_success_one_file (outcomes : Nat → Except FetchErr String)
    (gstart gend N : Nat) (body : String) (hN : 1 ≤ N)
    (hfail : ∀ k, k < N - 1 → ∃ e, outcomes k = Except.error e)
    (hsucc : outcomes (N - 1) = Except.ok body) :
    fetch_and_save outcomes (mkFilename gstart gend) N
      = Except.ok ⟨N, some (mkFilename gstart gend, body), N - 1, true, false⟩ := by
  unfold fetch_and_save
  exact fetchGo_success outcomes (mkFilename gstart gend) N 0 body (by omega)
    (fun k hk => by simpa using hfail k hk)
    (by simpa using hsucc)

/-- Witness for C6: budget 3, two timeouts then a success; one file named
`1-500.json` with the response body, after exactly 3 attempts. -/
theorem C6_fail_then_success_one_file_witness :
    fetch_and_save
        (fun k => if k < 2 then Except.error FetchErr.timeoutExc
                  else Except.ok "payload")
        (mkFilename 1 500) 3
      = Except.ok ⟨3, some (mkFilename 1 500, "payload"), 2, true, false⟩ :=
  C6_fail_then_success_one_file _ 1 500 3 "payload" (by omega)
    (fun k hk => ⟨FetchErr.timeoutExc, by simp [show k < 2 by omega]⟩)
    (by norm_num)

/-- C7.  A Fetch Worker all of whose `N ≥ 1` attempts fail writes nothing
under its target filename (`file = none`), logs the exhausted-failure
outcome, and — like every Fetch Worker execution, whatever its attempts
raise — terminates with an ordinary result: `except Exception` catches every
attempt's exception, so none propagates across the wave-join boundary. -/
theorem C7_all_fail_no_file (outcomes : Nat → Except FetchErr String)
    (filename : String) (N : Nat) (hN : 1 ≤ N)
    (hfail : ∀ k, k < N → ∃ e, outcomes k = Except.error e) :
    fetch_and_save outcomes filename N
      = Except.ok ⟨N, none, N - 1, false, true⟩ ∧
    ∀ outcomes2 : Nat → Except FetchErr String, ∃ res,
      fetch_and_save outcomes2 filename N = Except.ok res := by
  constructor
  · unfold fetch_and_save
    exact fetchGo_all_fail outcomes filename N 0 (by omega)
      (fun k hk => by simpa using hfail k hk)
  · intro outcomes2
    exact fetchGo_isOk outcomes2 filename N 0

/-- Witness for C7: budget 2, both attempts raise (a timeout then an HTTP
status error); no file, exhausted failure logged. -/
theorem C7_all_fail_no_file_witness :
    fetch_and_save
        (fun k => if k = 0 then Except.error FetchErr.timeoutExc
                  else Except.error FetchErr.httpStatusError)
        "1-500.json" 2
      = Except.ok ⟨2, none, 1, false, true⟩ :=
  (C7_all_fail_no_file _ "1-500.json" 2 (by omega)
    (fun k _ => by
      by_cases hk : k = 0
      · exact ⟨FetchErr.timeoutExc, by simp [hk]⟩
      · exact ⟨FetchErr.httpStatusError, by simp [hk]⟩)).1

/-- C10.  With a retry budget of 0, `range(args.retries)` is empty: the
worker performs zero attempts, writes no file, sleeps never, logs neither a
success nor an exhausted failure, and returns normally. -/
theorem C10_zero_retries_silent_noop (outcomes : Nat → Except FetchErr String)
    (filename : String) :
    fetch_and_save outcomes filename 0
      = Except.ok ⟨0, none, 0, false, false⟩ := rfl

/-- Witness for C3 with page size 500 and counts `[some 1200, none, some 700]`. -/
theorem C3_ranges_disjoint_increasing_witness :
    List.Pairwise (fun p q => p.global_end < q.global_start)
      ((runPlan 500 [some 1200, none, some 700] 1).1).flatten ∧
    ∀ p ∈ ((runPlan 500 [some 1200, none, some 700] 1).1).flatten,
      500 ∣ p.api_offset :=
  C3_ranges_disjoint_increasing 500 (by decide) [some 1200, none, some 700]

theorem countP_le_countP {α : Type} (p q : α → Bool) :
    ∀ l : List α, (∀ a ∈ l, p a = true → q a = true) → l.countP p ≤ l.countP q
  | [], _ => le_refl _
  | a :: l, h => by
    have ih := countP_le_countP p q l (fun b hb => h b (List.mem_cons_of_mem a hb))
    rw [List.countP_cons, List.countP_cons]
    by_cases hpa : p a = true
    · have hqa := h a (List.mem_cons_self a l) hpa
      simp [hpa, hqa]
      omega
    · have hpa2 : p a = false := by
        cases hval : p a
        · rfl
        · exact absurd hval hpa
      simp [hpa2]
      split <;> omega

theorem heldPermits_append (l1 l2 : List Worker) :
    heldPermits (l1 ++ l2) = heldPermits l1 + heldPermits l2 :=
  List.countP_append _ _ _

theorem heldPermits_cons (w : Worker) (l : List Worker) :
    heldPermits (w :: l) = heldPermits l + (if holdsPermit w.phase then 1 else 0) :=
  List.countP_cons _ _ _

theorem inv_init (limit n : Nat) : Inv limit (initState limit n) := by
  constructor
  · show limit + heldPermits (List.replicate n ⟨Phase.created, 0⟩) = limit
    have h : heldPermits (List.replicate n ⟨Phase.created, 0⟩) = 0 := by
      unfold heldPermits
      rw [List.countP_eq_zero]
      intro w hw
      have := List.eq_of_mem_replicate hw
      subst this
      simp [holdsPermit]
    omega
  · intro w hw
    have := List.eq_of_mem_replicate hw
    subst this
    exact ⟨fun h => (nomatch h), fun _ => rfl⟩

theorem heldPermits_cons_holding (w : Worker) (l : List Worker)
    (h : holdsPermit w.phase = true) : heldPermits (w :: l) = heldPermits l + 1 := by
  rw [heldPermits_cons, h]
  simp

theorem heldPermits_cons_not_holding (w : Worker) (l : List Worker)
    (h : holdsPermit w.phase = false) : heldPermits (w :: l) = heldPermits l := by
  rw [heldPermits_cons, h]
  simp

theorem inv_step (limit retries : Nat) {s t : SysState}
    (hstep : Step retries s t) (hinv : Inv limit s) : Inv limit t := by
  obtain ⟨hsem, hacq⟩ := hinv
  cases hstep with
  | start s pre post a =>
    constructor
    · show s + heldPermits (pre ++ (⟨Phase.waiting, a⟩ : Worker) :: post) = limit
      have h1 : s + heldPermits (pre ++ (⟨Phase.created, a⟩ : Worker) :: post) = limit := hsem
      rw [heldPermits_append, heldPermits_cons_not_holding ⟨Phase.created, a⟩ post rfl] at h1
      rw [heldPermits_append, heldPermits_cons_not_holding ⟨Phase.waiting, a⟩ post rfl]
      omega
    · intro w hw
      rw [List.mem_append, List.mem_cons] at hw
      rcases hw with hw | hw | hw
      · exact hacq w (by simp [hw])
      · subst hw
        have ha := (hacq ⟨Phase.created, a⟩ (by simp)).2 rfl
        have ha2 : a = 0 := ha
        exact ⟨fun h => (nomatch h), fun _ => ha2⟩
      · exact hacq w (by simp [hw])
  | acquire s pre post a =>
    constructor
    · show s + heldPermits (pre ++ (⟨Phase.inFlight 0, a + 1⟩ : Worker) :: post) = limit
      have h1 : s + 1 + heldPermits (pre ++ (⟨Phase.waiting, a⟩ : Worker) :: post) = limit := hsem
      rw [heldPermits_append, heldPermits_cons_not_holding ⟨Phase.waiting, a⟩ post rfl] at h1
      rw [heldPermits_append, heldPermits_cons_holding ⟨Phase.inFlight 0, a + 1⟩ post rfl]
      omega
    · intro w hw
      rw [List.mem_append, List.mem_cons] at hw
      rcases hw with hw | hw | hw
      · exact hacq w (by simp [hw])
      · subst hw
        have ha := (hacq ⟨Phase.waiting, a⟩ (by simp)).2 rfl
        have ha2 : a = 0 := ha
        refine ⟨fun _ => ?_, fun h => (nomatch h)⟩
        show a + 1 = 1
        omega
      · exact hacq w (by simp [hw])
  | succeed s pre post j a =>
    constructor
    · show s + 1 + heldPermits (pre ++ (⟨Phase.finished, a⟩ : Worker) :: post) = limit
      have h1 : s + heldPermits (pre ++ (⟨Phase.inFlight j, a⟩ : Worker) :: post) = limit := hsem
      rw [heldPermits_append, heldPermits_cons_holding ⟨Phase.inFlight j, a⟩ post rfl] at h1
      rw [heldPermits_append, heldPermits_cons_not_holding ⟨Phase.finished, a⟩ post rfl]
      omega
    · intro w hw
      rw [List.mem_append, List.mem_cons] at hw
      rcases hw with hw | hw | hw
      · exact hacq w (by simp [hw])
      · subst hw
        have ha := (hacq ⟨Phase.inFlight j, a⟩ (by simp)).1 rfl
        have ha2 : a = 1 := ha
        exact ⟨fun _ => ha2, fun h => (nomatch h)⟩
      · exact hacq w (by simp [hw])
  | failRetry s pre post j a hj =>
    constructor
    · show s + heldPermits (pre ++ (⟨Phase.sleeping j, a⟩ : Worker) :: post) = limit
      have h1 : s + heldPermits (pre ++ (⟨Phase.inFlight j, a⟩ : Worker) :: post) = limit := hsem
      rw [heldPermits_append, heldPermits_cons_holding ⟨Phase.inFlight j, a⟩ post rfl] at h1
      rw [heldPermits_append, heldPermits_cons_holding ⟨Phase.sleeping j, a⟩ post rfl]
      omega
    · intro w hw
      rw [List.mem_append, List.mem_cons] at hw
      rcases hw with hw | hw | hw
      · exact hacq w (by simp [hw])
      · subst hw
        have ha := (hacq ⟨Phase.inFlight j, a⟩ (by simp)).1 rfl
        have ha2 : a = 1 := ha
        exact ⟨fun _ => ha2, fun h => (nomatch h)⟩
      · exact hacq w (by simp [hw])
  | failExhaust s pre post j a hj =>
    constructor
    · show s + 1 + heldPermits (pre ++ (⟨Phase.finished, a⟩ : Worker) :: post) = limit
      have h1 : s + heldPermits (pre ++ (⟨Phase.inFlight j, a⟩ : Worker) :: post) = limit := hsem
      rw [heldPermits_append, heldPermits_cons_holding ⟨Phase.inFlight j, a⟩ post rfl] at h1
      rw [heldPermits_append, heldPermits_cons_not_holding ⟨Phase.finished, a⟩ post rfl]
      omega
    · intro w hw
      rw [List.mem_append, List.mem_cons] at hw
      rcases hw with hw | hw | hw
      · exact hacq w (by simp [hw])
      · subst hw
        have ha := (hacq ⟨Phase.inFlight j, a⟩ (by simp)).1 rfl
        have ha2 : a = 1 := ha
        exact ⟨fun _ => ha2, fun h => (nomatch h)⟩
      · exact hacq w (by simp [hw])
  | wake s pre post j a =>
    constructor
    · show s + heldPermits (pre ++ (⟨Phase.inFlight (j + 1), a⟩ : Worker) :: post) = limit
      have h1 : s + heldPermits (pre ++ (⟨Phase.sleeping j, a⟩ : Worker) :: post) = limit := hsem
      rw [heldPermits_append, heldPermits_cons_holding ⟨Phase.sleeping j, a⟩ post rfl] at h1
      rw [heldPermits_append, heldPermits_cons_holding ⟨Phase.inFlight (j + 1), a⟩ post rfl]
      omega
    · intro w hw
      rw [List.mem_append, List.mem_cons] at hw
      rcases hw with hw | hw | hw
      · exact hacq w (by simp [hw])
      · subst hw
        have ha := (hacq ⟨Phase.sleeping j, a⟩ (by simp)).1 rfl
        have ha2 : a = 1 := ha
        exact ⟨fun _ => ha2, fun h => (nomatch h)⟩
      · exact hacq w (by simp [hw])

theorem inv_reachable (limit retries n : Nat) {s : SysState}
    (h : Reachable limit retries n s) : Inv limit s := by
  induction h with
  | init => exact inv_init limit n
  | next _ hstep ih => exact inv_step limit retries hstep ih

theorem isInFlight_holdsPermit (p : Phase) (h : isInFlight p = true) :
    holdsPermit p = true := by
  cases p <;> simp [isInFlight, holdsPermit] at h ⊢

theorem holdsPermit_postAcquire (p : Phase) (h : holdsPermit p = true) :
    postAcquire p = true := by
  cases p <;> simp [holdsPermit, postAcquire] at h ⊢

/-- C8.  In every reachable state of a category's fetch wave run under a
semaphore with `limit` permits: at most `limit` workers have a request in
flight; free and held permits always account exactly for the semaphore's
initial value; and every worker that has entered the `async with semaphore:`
block — in particular a worker in any attempt of its retry loop, in flight
or sleeping between retries — has acquired the semaphore exactly once (the
permit is held for the worker's whole lifetime, never re-acquired per
attempt). -/
theorem C8_in_flight_bounded_single_acquire (limit retries n : Nat)
    (s : SysState) (hreach : Reachable limit retries n s) :
    inFlightCount s.workers ≤ limit ∧
    s.sem + heldPermits s.workers = limit ∧
    (∀ w ∈ s.workers, postAcquire w.phase = true → w.acquires = 1) ∧
    (∀ w ∈ s.workers, ∀ j,
      w.phase = Phase.inFlight j ∨ w.phase = Phase.sleeping j → w.acquires = 1) := by
  obtain ⟨hsem, hacq⟩ := inv_reachable limit retries n hreach
  have hmono : inFlightCount s.workers ≤ heldPermits s.workers :=
    countP_le_countP _ _ s.workers
      (fun w _ h => isInFlight_holdsPermit w.phase h)
  refine ⟨by omega, hsem, fun w hw h => (hacq w hw).1 h, ?_⟩
  intro w hw j hj
  refine (hacq w hw).1 ?_
  rcases hj with hj | hj <;> rw [hj] <;> rfl

/-- Witness for C8: the state of a 1-worker wave (limit 2, retries 3) after
the worker started and acquired the permit. -/
theorem C8_in_flight_bounded_single_acquire_witness :
    inFlightCount [(⟨Phase.inFlight 0, 1⟩ : Worker)] ≤ 2 ∧
    1 + heldPermits [(⟨Phase.inFlight 0, 1⟩ : Worker)] = 2 ∧
    (∀ w ∈ [(⟨Phase.inFlight 0, 1⟩ : Worker)],
      postAcquire w.phase = true → w.acquires = 1) ∧
    (∀ w ∈ [(⟨Phase.inFlight 0, 1⟩ : Worker)], ∀ j,
      w.phase = Phase.inFlight j ∨ w.phase = Phase.sleeping j → w.acquires = 1) :=
  C8_in_flight_bounded_single_acquire 2 3 1 ⟨1, [⟨Phase.inFlight 0, 1⟩]⟩
    (Reachable.next (Reachable.next Reachable.init (Step.start 2 [] [] 0))
      (Step.acquire 1 [] [] 0))

/-- C9.  Permits are released on every terminal path: in any reachable wave
state in which no worker is inside the `async with` block (in particular
when all workers are finished, successfully or after exhausting retries),
the semaphore again holds all `limit` permits; consequently, when a worker
is waiting and every other worker has finished or not yet acquired, the
waiting worker's acquire step is enabled — finished workers can never
permanently block the rest of the wave. -/
theorem C9_permits_released_no_leak (limit retries n : Nat)
    (s : SysState) (hreach : Reachable limit retries n s) :
    ((∀ w ∈ s.workers, holdsPermit w.phase = false) → s.sem = limit) ∧
    (∀ pre post a, s.workers = pre ++ (⟨Phase.waiting, a⟩ : Worker) :: post →
      (∀ w ∈ pre ++ post, holdsPermit w.phase = false) →
      1 ≤ limit →
      Step retries s
        ⟨limit - 1, pre ++ (⟨Phase.inFlight 0, a + 1⟩ : Worker) :: post⟩) := by
  obtain ⟨hsem, hacq⟩ := inv_reachable limit retries n hreach
  constructor
  · intro hall
    have h0 : heldPermits s.workers = 0 := by
      unfold heldPermits
      rw [List.countP_eq_zero]
      intro w hw
      simp [hall w hw]
    omega
  · intro pre post a hws hrest hlim
    have hpre : heldPermits pre = 0 := by
      unfold heldPermits
      rw [List.countP_eq_zero]
      intro w hw
      simp [hrest w (List.mem_append_left _ hw)]
    have hpost : heldPermits post = 0 := by
      unfold heldPermits
      rw [List.countP_eq_zero]
      intro w hw
      simp [hrest w (List.mem_append_right _ hw)]
    have h0 : heldPermits s.workers = 0 := by
      rw [hws, heldPermits_append,
        heldPermits_cons_not_holding ⟨Phase.waiting, a⟩ post rfl]
      omega
    have hsemval : s.sem = limit := by omega
    have hs : s = ⟨limit, pre ++ (⟨Phase.waiting, a⟩ : Worker) :: post⟩ := by
      have heta : s = ⟨s.sem, s.workers⟩ := rfl
      rw [heta, hsemval, hws]
    rw [hs]
    have hstep := @Step.acquire retries (limit - 1) pre post a
    rw [show limit - 1 + 1 = limit from by omega] at hstep
    exact hstep

/-- Witness for C9: a 2-worker wave with a single permit (retries 3) in
which the first worker ran to completion and the second is waiting; the
finished worker does not block it — its acquire step is enabled. -/
theorem C9_permits_released_no_leak_witness :
    Step 3 ⟨1, [⟨Phase.finished, 1⟩, ⟨Phase.waiting, 0⟩]⟩
      ⟨0, [⟨Phase.finished, 1⟩, (⟨Phase.inFlight 0, 1⟩ : Worker)]⟩ :=
  (C9_permits_released_no_leak 1 3 2
      ⟨1, [⟨Phase.finished, 1⟩, ⟨Phase.waiting, 0⟩]⟩
      (Reachable.next (Reachable.next (Reachable.next (Reachable.next
          Reachable.init
          (Step.start 1 [] [⟨Phase.created, 0⟩] 0))
          (Step.acquire 0 [] [⟨Phase.created, 0⟩] 0))
          (Step.succeed 0 [] [⟨Phase.created, 0⟩] 0 1))
          (Step.start 1 [⟨Phase.finished, 1⟩] [] 0))).2
    [⟨Phase.finished, 1⟩] [] 0 rfl
    (fun w hw => by
      simp only [List.append_nil, List.mem_singleton] at hw
      subst hw
      rfl)
    (by omega)

end Scrape
